import Mathlib

/-!
Verification of the OpticalFiber repository (DylanRR/OpticalFiber).

Shallow embedding conventions:
* Python floats are modelled as exact rationals (`ℚ`); float literals such as
  0.4 or 2.5 become the rationals 2/5 and 5/2.
* Python `int(x)` truncates toward zero; this is `pyint` below.
* Python `%` on floats (with positive modulus) is `a - b * ⌊a / b⌋`; this is
  `pymod` below.
* The transcendental library calls `math.sqrt` and `math.sin` that feed the
  renderer are modelled as explicit function parameters (`sqrtQ`, `sinQ`),
  so every definition stays executable; theorems state the properties of the
  true functions (for example `sqrtQ 0 = 0`) as hypotheses, and concrete
  instantiations use `intSqrtQ`, which agrees with the real square root on
  perfect squares.
* The incidence angle `math.degrees(math.atan2(abs dy, abs dx))` computed by
  the tracer is kept as the pair `(|dy|, |dx|)` in a `Bounce` record; since
  the tracer only runs with `dx > 0`, `atan2 |dy| |dx| = arctan (|dy| / |dx|)`,
  and theorems about the angle use `Real.arctan` on the stored pair.
* The `while current_x < ...` loop of `calculate_light_path` is embedded with
  explicit fuel; `traceAux` returns `none` when fuel runs out inside the loop,
  and `computePath` supplies fuel that provably suffices whenever `dx > 0`.
-/

namespace OpticalFiber

/-- Python `int(q)`: truncation toward zero. -/
def pyint (q : ℚ) : ℤ := if q < 0 then -⌊-q⌋ else ⌊q⌋

/-- Python float `a % b` for nonzero `b`: `a - b * ⌊a / b⌋`. -/
def pymod (a b : ℚ) : ℚ := a - b * ⌊a / b⌋

/-- StrippedFiberTest.py line 176 (and fiberTest.py line 106):
`angle_degrees = (self.slider_value - 0.5) * 2 * max_angle`; the degree value
computed by `get_angle_from_slider` before conversion to radians.
`max_angle` is 87 in StrippedFiberTest.py and 89.9 in fiberTest.py. -/
def get_angle_degrees (max_angle slider_value : ℚ) : ℚ :=
  (slider_value - 1/2) * 2 * max_angle

/-- One reflection event recorded by `calculate_light_path`.
`x`/`y` is the recorded bounce position `(current_x, wall)`, and
`ady`/`adx` are `abs(dy)`/`abs(dx)` of the pre-reflection direction, the two
arguments of the `math.atan2` call that produces the incidence angle. -/
structure Bounce where
  x : ℚ
  y : ℚ
  ady : ℚ
  adx : ℚ
  deriving DecidableEq

/-- The value returned by `calculate_light_path`: the integer path points, the
bounce events, and the list of per-step squared segment lengths whose square
roots are summed into `total_distance` (StrippedFiberTest.py lines 235-238). -/
structure TraceResult where
  pts : List (ℤ × ℤ)
  bounces : List Bounce
  segSqs : List ℚ
  deriving DecidableEq

/-- The `while current_x < right` loop of `calculate_light_path`
(StrippedFiberTest.py lines 201-238; fiberTest.py lines 131-168, with walls
`top`/`bottom`, right edge `right`, constant `dx` and mutable `y`, `dy`).
Each iteration moves one `step` along `(dx, dy)`, reflects a proposed `y`
that crosses a wall back inside via the mirror formula, records the bounce,
appends the truncated-integer position, and records the squared distance from
the previously stored integer point to the new exact position.  Fuel-indexed:
`none` means the fuel was exhausted with the loop condition still true. -/
def traceAux (top bottom right step dx : ℚ) :
    ℕ → ℚ → ℚ → ℚ → ℤ × ℤ → List (ℤ × ℤ) → List Bounce → List ℚ →
    Option TraceResult
  | 0, x, _y, _dy, _lastPt, pts, bs, segs =>
      if x < right then none else some ⟨pts, bs, segs⟩
  | fuel + 1, x, y, dy, lastPt, pts, bs, segs =>
      if x < right then
        let nx := x + dx * step
        let ny := y + dy * step
        if ny ≤ top then
          let ry := top + (top - ny)
          traceAux top bottom right step dx fuel nx ry (-dy) (pyint nx, pyint ry)
            (pts ++ [(pyint nx, pyint ry)])
            (bs ++ [⟨x, top, |dy|, |dx|⟩])
            (segs ++ [(nx - (lastPt.1 : ℚ)) ^ 2 + (ry - (lastPt.2 : ℚ)) ^ 2])
        else if bottom ≤ ny then
          let ry := bottom - (ny - bottom)
          traceAux top bottom right step dx fuel nx ry (-dy) (pyint nx, pyint ry)
            (pts ++ [(pyint nx, pyint ry)])
            (bs ++ [⟨x, bottom, |dy|, |dx|⟩])
            (segs ++ [(nx - (lastPt.1 : ℚ)) ^ 2 + (ry - (lastPt.2 : ℚ)) ^ 2])
        else
          traceAux top bottom right step dx fuel nx ny dy (pyint nx, pyint ny)
            (pts ++ [(pyint nx, pyint ny)])
            bs
            (segs ++ [(nx - (lastPt.1 : ℚ)) ^ 2 + (ny - (lastPt.2 : ℚ)) ^ 2])
      else some ⟨pts, bs, segs⟩

/-- Fuel that suffices for `traceAux` whenever `0 < dx * step`: one more than
the ceiling of the number of steps needed to cross from `left` to `right`. -/
def fuelFor (left right step dx : ℚ) : ℕ :=
  (⌈(right - left) / (dx * step)⌉).toNat + 1

/-- `calculate_light_path` (StrippedFiberTest.py lines 182-240; fiberTest.py
lines 112-170), generalised over the wall and edge constants of the two files:
start at `(left, startY)`, direction `(dx, dy)`, path seeded with the start
point, and loop until `x` reaches `right`.  In StrippedFiberTest.py
`top = 0`, `bottom = screen_height`, `left = 0`, `right = screen_width`,
`startY = screen_height // 2`, `step = 2`; in fiberTest.py the corresponding
constants are `FIBER_TOP`, `FIBER_BOTTOM`, `FIBER_LEFT`, `FIBER_RIGHT` and
`FIBER_TOP + FIBER_HEIGHT // 2`.  `dx`/`dy` stand for
`cos(radians(angle_degrees))`/`sin(radians(angle_degrees))`. -/
def computePath (top bottom left right step startY dx dy : ℚ) :
    Option TraceResult :=
  traceAux top bottom right step dx (fuelFor left right step dx)
    left startY dy (pyint left, pyint startY)
    [(pyint left, pyint startY)] [] []

/-- Total extraction of the segment-squared list from an optional result. -/
def segSqsOf (o : Option TraceResult) : List ℚ := o.elim [] TraceResult.segSqs

/-- Total extraction of the point list from an optional result. -/
def ptsOf (o : Option TraceResult) : List (ℤ × ℤ) := o.elim [] TraceResult.pts

/-- An RGB colour tuple of integer channels, as used throughout the source. -/
abbrev Color := ℤ × ℤ × ℤ

def BLACK : Color := (0, 0, 0)
def WHITE : Color := (255, 255, 255)
def RED : Color := (255, 0, 0)
def GREEN : Color := (0, 255, 0)
def YELLOW : Color := (255, 255, 0)
def ORANGE : Color := (255, 165, 0)

/-- The channel-wise pattern `tuple(min(255, int(c * k)) for c in color)` that
the source applies for brightness scaling. -/
def scale_min255 (k : ℚ) (c : Color) : Color :=
  (min 255 (pyint (c.1 * k)), min 255 (pyint (c.2.1 * k)),
    min 255 (pyint (c.2.2 * k)))

/-- The unclamped pattern `tuple(int(c * k) for c in color)` used for the
bounce burst and ring colours (StrippedFiberTest.py lines 720 and 725). -/
def scale_raw (k : ℚ) (c : Color) : Color :=
  (pyint (c.1 * k), pyint (c.2.1 * k), pyint (c.2.2 * k))

/-- The fields of `OpticalFiberSimulation.__init__` (StrippedFiberTest.py
lines 52-112) that the core path/render functions read. -/
structure SimState where
  screen_width : ℤ
  screen_height : ℤ
  slider_value : ℚ
  time : ℚ
  global_dash_offset : ℚ
  thickness_multiplier : ℚ
  dash_gap_multiplier : ℚ
  dash_speed_multiplier : ℚ
  vibrance_multiplier : ℚ
  gradient_glow : Bool
  animated_properties : Bool
  laser_core_halo : Bool
  particle_effects : Bool
  pulsing_segments : Bool
  solid_with_dashes : Bool
  deriving DecidableEq

/-- The hardcoded initial state of StrippedFiberTest.py lines 66-107:
slider at 0.5, all six effect toggles on, multipliers 3.7 / 0.3 / 4.9 / 1.1,
time and dash offset zero. -/
def stripped_init (W H : ℤ) : SimState where
  screen_width := W
  screen_height := H
  slider_value := 1/2
  time := 0
  global_dash_offset := 0
  thickness_multiplier := 37/10
  dash_gap_multiplier := 3/10
  dash_speed_multiplier := 49/10
  vibrance_multiplier := 11/10
  gradient_glow := true
  animated_properties := true
  laser_core_halo := true
  particle_effects := true
  pulsing_segments := true
  solid_with_dashes := true

/-- A render configuration with the cosmetic layers (glow, animation,
particles, faded base) switched off and only the core stroke on; the toggle
dictionary is user-adjustable state in the checkbox variant
(fiberTest_laser.py lines 960-978), so such states are reachable inputs of
the renderer. -/
def plain_core_state (W H : ℤ) : SimState :=
  { stripped_init W H with
      gradient_glow := false
      animated_properties := false
      particle_effects := false
      solid_with_dashes := false }

/-- `apply_vibrance` (StrippedFiberTest.py lines 130-132):
`tuple(min(255, int(c * self.vibrance_multiplier)) for c in color)`. -/
def apply_vibrance (s : SimState) (c : Color) : Color :=
  scale_min255 s.vibrance_multiplier c

/-- A primitive draw call issued against the pygame surface: the core uses
only `pygame.draw.line` and `pygame.draw.circle`. -/
inductive DrawCmd where
  | line (color : Color) (p q : ℤ × ℤ) (width : ℤ)
  | circle (color : Color) (center : ℤ × ℤ) (radius : ℤ)
  deriving DecidableEq

/-- The width of a line command, `none` for a circle. -/
def lineWidth : DrawCmd → Option ℤ
  | .line _ _ _ w => some w
  | .circle _ _ _ => none

/-- Dash length `10 * thickness_multiplier` (StrippedFiberTest.py line 390). -/
def dash_length (tm : ℚ) : ℚ := 10 * tm

/-- Gap length `50 * thickness_multiplier * dash_gap_multiplier`
(StrippedFiberTest.py line 391). -/
def gap_length (tm gm : ℚ) : ℚ := 50 * tm * gm

/-- `total_pattern_length = dash_length + gap_length`
(StrippedFiberTest.py line 392). -/
def total_pattern_length (tm gm : ℚ) : ℚ := dash_length tm + gap_length tm gm

/-- The animated dash phase
`(-self.global_dash_offset + cumulative_distance) % total_pattern_length`
(StrippedFiberTest.py line 398). -/
def animation_offset (g cum L : ℚ) : ℚ := pymod (-g + cum) L

/-- `dash_start_distance = i * total_pattern_length - animation_offset`
(StrippedFiberTest.py line 408). -/
def dash_start_distance (i : ℕ) (L off : ℚ) : ℚ := i * L - off

/-- The glow colour picked from the base colour inside the dash loop
(StrippedFiberTest.py lines 445-450), with `k = pulse * dash_intensity`. -/
def glow_color_of (k : ℚ) (base : Color) : Color :=
  if base = GREEN then (0, min 255 (pyint (150 * k)), 0)
  else if base = YELLOW then
    (min 255 (pyint (200 * k)), min 255 (pyint (200 * k)), 0)
  else (min 255 (pyint (200 * k)), min 255 (pyint (100 * k)), 0)

/-- The three-layer glow pattern repeated throughout the renderer
(StrippedFiberTest.py lines 288-296, 352-360 and 456-462): an outer stroke in
the glow colour, a middle stroke brightened by 1.2 and an inner stroke
brightened by 1.5, at three given widths. -/
def glow_stroke_cmds (gc : Color) (p q : ℤ × ℤ) (w1 w2 w3 : ℤ) :
    List DrawCmd :=
  [DrawCmd.line gc p q w1,
   DrawCmd.line (scale_min255 (6/5) gc) p q w2,
   DrawCmd.line (scale_min255 (3/2) gc) p q w3]

/-- The inner particle loop of `draw_pulsing_segments`
(StrippedFiberTest.py lines 476-498): `num` particles indexed by `p`,
positioned at `particle_t = (p + 0.5) / num` along the clamped dash. -/
def particle_cmds (sinQ : ℚ → ℚ) (s : SimState) (start_pos : ℤ × ℤ)
    (base_color core_color : Color) (tm dash_intensity : ℚ)
    (dxn dyn dsStart dal : ℚ) (i : ℕ) (num : ℕ) :
    ℕ → ℕ → List DrawCmd
  | 0, _ => []
  | n + 1, p =>
      let particle_t : ℚ := (p + 1/2) / num
      let particle_distance := dsStart + particle_t * dal
      let particle_x := pyint ((start_pos.1 : ℚ) + dxn * particle_distance)
      let particle_y := pyint ((start_pos.2 : ℚ) + dyn * particle_distance)
      let particle_intensity :=
        (if s.animated_properties then
          4/5 + 1/5 * sinQ (s.time * (1/10) + p * 2 + i)
        else 1) * dash_intensity
      let particle_color :=
        if s.laser_core_halo then scale_min255 particle_intensity core_color
        else apply_vibrance s (scale_min255 particle_intensity base_color)
      DrawCmd.circle particle_color (particle_x, particle_y)
          (max 1 (pyint (2 * tm * (1/2)))) ::
        particle_cmds sinQ s start_pos base_color core_color tm dash_intensity
          dxn dyn dsStart dal i num n (p + 1)

/-- The dash loop `for i in range(num_patterns)` of `draw_pulsing_segments`
(StrippedFiberTest.py lines 406-498): per candidate dash, skip dashes ending
before the beam, break once a dash starts past the beam, clamp to the beam,
skip empty dashes, then emit glow layers, the core stroke and particles. -/
def dash_cmds (sinQ : ℚ → ℚ) (s : SimState) (start_pos : ℤ × ℤ)
    (base_color core_color : Color) (tm pulse intensity : ℚ)
    (dxn dyn beam_length dashLen L off : ℚ) :
    ℕ → ℕ → List DrawCmd
  | 0, _ => []
  | n + 1, i =>
      let ds := dash_start_distance i L off
      let de := ds + dashLen
      if de < 0 then
        dash_cmds sinQ s start_pos base_color core_color tm pulse intensity
          dxn dyn beam_length dashLen L off n (i + 1)
      else if beam_length < ds then []
      else
        let dsc := max 0 ds
        let dec := min beam_length de
        if dec ≤ dsc then
          dash_cmds sinQ s start_pos base_color core_color tm pulse intensity
            dxn dyn beam_length dashLen L off n (i + 1)
        else
          let dash_start : ℤ × ℤ :=
            (pyint ((start_pos.1 : ℚ) + dxn * dsc),
             pyint ((start_pos.2 : ℚ) + dyn * dsc))
          let dash_end : ℤ × ℤ :=
            (pyint ((start_pos.1 : ℚ) + dxn * dec),
             pyint ((start_pos.2 : ℚ) + dyn * dec))
          let dash_intensity :=
            if s.animated_properties then
              intensity * (9/10 + 1/10 * sinQ (s.time * (1/20) + i * (4/5)))
            else intensity
          let glow :=
            if s.gradient_glow then
              glow_stroke_cmds
                (apply_vibrance s
                  (glow_color_of (pulse * dash_intensity) base_color))
                dash_start dash_end
                (pyint (12 * tm)) (pyint (8 * tm)) (pyint (5 * tm))
            else []
          let core :=
            if s.laser_core_halo then
              [DrawCmd.line (scale_min255 dash_intensity core_color)
                dash_start dash_end (max 1 (pyint (2 * tm)))]
            else
              [DrawCmd.line
                (apply_vibrance s (scale_min255 dash_intensity base_color))
                dash_start dash_end (max 1 (pyint (3 * tm)))]
          let particles :=
            if s.particle_effects then
              let dal := dec - dsc
              if 5 < dal then
                let num := (max 1 (pyint (dal / 8))).toNat
                particle_cmds sinQ s start_pos base_color core_color tm
                  dash_intensity dxn dyn dsc dal i num num 0
              else []
            else []
          glow ++ core ++ particles ++
            dash_cmds sinQ s start_pos base_color core_color tm pulse intensity
              dxn dyn beam_length dashLen L off n (i + 1)

/-- `draw_faded_solid_base` (StrippedFiberTest.py lines 333-368): the faded
glow layers and faded core stroke drawn under the dash pattern. -/
def draw_faded_solid_base (s : SimState) (start_pos end_pos : ℤ × ℤ)
    (base_color core_color : Color) (tm pulse intensity : ℚ) : List DrawCmd :=
  let fade_intensity := intensity * (2/5)
  let fade_pulse := pulse * (2/5)
  let glow :=
    if s.gradient_glow then
      glow_stroke_cmds (apply_vibrance s (glow_color_of fade_pulse base_color))
        start_pos end_pos (pyint (8 * tm)) (pyint (5 * tm)) (pyint (3 * tm))
    else []
  let core :=
    if s.laser_core_halo then
      [DrawCmd.line (scale_min255 fade_intensity core_color) start_pos end_pos
        (max 1 (pyint ((3/2) * tm)))]
    else
      [DrawCmd.line (apply_vibrance s (scale_min255 fade_intensity base_color))
        start_pos end_pos (max 1 (pyint (2 * tm)))]
  glow ++ core

/-- `draw_pulsing_segments` (StrippedFiberTest.py lines 370-498): optionally
draw the faded solid base, compute the segment direction and length, return
early on a zero-length segment (before the direction is normalised), else
emit the moving dash pattern.  `sqrtQ` models `math.sqrt`; the source guard
`if beam_length == 0` is the test `sqrtQ (dx * dx + dy * dy) = 0`. -/
def draw_pulsing_segments (sqrtQ sinQ : ℚ → ℚ) (s : SimState)
    (start_pos end_pos : ℤ × ℤ) (base_color core_color : Color)
    (tm pulse intensity cumulative_distance : ℚ) : List DrawCmd :=
  let fadedCmds :=
    if s.solid_with_dashes then
      draw_faded_solid_base s start_pos end_pos base_color core_color tm pulse
        intensity
    else []
  let dx : ℚ := ((end_pos.1 - start_pos.1 : ℤ) : ℚ)
  let dy : ℚ := ((end_pos.2 - start_pos.2 : ℤ) : ℚ)
  let beam_length := sqrtQ (dx * dx + dy * dy)
  if beam_length = 0 then fadedCmds
  else
    let dxn := dx / beam_length
    let dyn := dy / beam_length
    let dashLen := dash_length tm
    let L := total_pattern_length tm s.dash_gap_multiplier
    let off :=
      if s.animated_properties then
        animation_offset s.global_dash_offset cumulative_distance L
      else pymod cumulative_distance L
    let num_patterns := (pyint ((beam_length + L) / L) + 2).toNat
    fadedCmds ++
      dash_cmds sinQ s start_pos base_color core_color tm pulse intensity
        dxn dyn beam_length dashLen L off num_patterns 0

/-- The sparkle loop of `draw_solid_beam` (StrippedFiberTest.py lines
308-331): `num` sparkles indexed by `i`, placed at a clamped fraction `t`
along the beam. -/
def sparkle_cmds (sinQ : ℚ → ℚ) (s : SimState) (start_pos end_pos : ℤ × ℤ)
    (base_color core_color : Color) (tm : ℚ) (num : ℕ) :
    ℕ → ℕ → List DrawCmd
  | 0, _ => []
  | n + 1, i =>
      let t0 : ℚ :=
        if s.animated_properties then
          (i + 1/2) / num + 1/10 * sinQ (s.time * (3/10) + i)
        else (i + 1/2) / num
      let t := max 0 (min 1 t0)
      let sparkle_x :=
        pyint ((start_pos.1 : ℚ) + t * ((end_pos.1 - start_pos.1 : ℤ) : ℚ))
      let sparkle_y :=
        pyint ((start_pos.2 : ℚ) + t * ((end_pos.2 - start_pos.2 : ℤ) : ℚ))
      let sparkle_intensity : ℚ :=
        if s.animated_properties then 1/2 + 1/2 * sinQ (s.time * (1/5) + i * 2)
        else 1
      let sparkle_color :=
        if s.laser_core_halo then scale_min255 sparkle_intensity core_color
        else apply_vibrance s (scale_min255 sparkle_intensity base_color)
      DrawCmd.circle sparkle_color (sparkle_x, sparkle_y)
          (max 1 (pyint (2 * tm * (1/2)))) ::
        sparkle_cmds sinQ s start_pos end_pos base_color core_color tm num n
          (i + 1)

/-- `draw_solid_beam` (StrippedFiberTest.py lines 272-331): layered glow,
core stroke, and sparkles for long segments. -/
def draw_solid_beam (sinQ : ℚ → ℚ) (s : SimState) (start_pos end_pos : ℤ × ℤ)
    (base_color core_color : Color) (tm pulse beam_length : ℚ) :
    List DrawCmd :=
  let glow :=
    if s.gradient_glow then
      glow_stroke_cmds (apply_vibrance s (glow_color_of pulse base_color))
        start_pos end_pos (pyint (12 * tm)) (pyint (8 * tm)) (pyint (5 * tm))
    else []
  let core :=
    if s.laser_core_halo then
      [DrawCmd.line core_color start_pos end_pos (max 1 (pyint (2 * tm)))]
    else
      [DrawCmd.line (apply_vibrance s base_color) start_pos end_pos
        (max 1 (pyint (3 * tm)))]
  let sparkles :=
    if s.particle_effects && decide (50 < beam_length) then
      let num := (max 1 (pyint (beam_length / 100))).toNat
      sparkle_cmds sinQ s start_pos end_pos base_color core_color tm num num 0
    else []
  glow ++ core ++ sparkles

/-- `draw_laser_beam` (StrippedFiberTest.py lines 242-270): return nothing
for identical endpoints, else compute the pulse and core colour and, when
pulsing segments are enabled, do nothing (`pass`: that mode is handled in
`draw_light_path`), otherwise draw the solid beam. -/
def draw_laser_beam (sqrtQ sinQ : ℚ → ℚ) (s : SimState)
    (start_pos end_pos : ℤ × ℤ) (base_color : Color) (intensity : ℚ) :
    List DrawCmd :=
  if start_pos = end_pos then []
  else
    let beam_length := sqrtQ
      (((end_pos.1 - start_pos.1 : ℤ) : ℚ) ^ 2 +
        ((end_pos.2 - start_pos.2 : ℤ) : ℚ) ^ 2)
    let tm := s.thickness_multiplier
    let pulse :=
      if s.animated_properties then
        4/5 + 1/5 * sinQ (s.time * (1/10)) * intensity
      else 1 * intensity
    let core_color :=
      if s.laser_core_halo then
        apply_vibrance s
          (min 255 (pyint (255 * pulse)), min 255 (pyint (255 * pulse)),
            min 255 (pyint (255 * pulse)))
      else apply_vibrance s base_color
    if s.pulsing_segments then []
    else draw_solid_beam sinQ s start_pos end_pos base_color core_color tm
      pulse beam_length

/-- The per-segment loop of `draw_light_path` (StrippedFiberTest.py lines
682-698): walk consecutive point pairs, tracking `cumulative_distance` as the
sum of `sqrt` segment lengths between the stored integer points. -/
def segment_cmds (sqrtQ sinQ : ℚ → ℚ) (s : SimState) (light_color : Color)
    (intensity : ℚ) : List (ℤ × ℤ) → ℚ → List DrawCmd
  | p0 :: p1 :: rest, cum =>
      let segment_length := sqrtQ
        (((p1.1 - p0.1 : ℤ) : ℚ) ^ 2 + ((p1.2 - p0.2 : ℤ) : ℚ) ^ 2)
      let c :=
        if s.pulsing_segments then
          draw_pulsing_segments sqrtQ sinQ s p0 p1 light_color (255, 255, 255)
            s.thickness_multiplier
            (if s.animated_properties then 4/5 + 1/5 * sinQ (s.time * (1/10))
             else 1)
            intensity cum
        else draw_laser_beam sqrtQ sinQ s p0 p1 light_color intensity
      c ++ segment_cmds sqrtQ sinQ s light_color intensity (p1 :: rest)
        (cum + segment_length)
  | _, _ => []

/-- The three-tier classification of an angle in degrees against
`CRITICAL_ANGLE = 12` and `CRITICAL_ANGLE + 10` (StrippedFiberTest.py lines
671-679 and 703-708). -/
def tier_color (good marginal poor : Color) (angle : ℚ) : Color :=
  if angle < 12 then good else if angle < 22 then marginal else poor

/-- The bounce-marker loop of `draw_light_path` (StrippedFiberTest.py lines
701-736): for each `(position, incident_angle)` pair, pick the tier colour
from that bounce's own angle and draw burst, ring and core circles. -/
def bounce_cmds (sinQ : ℚ → ℚ) (s : SimState) :
    List ((ℚ × ℚ) × ℚ) → ℕ → List DrawCmd
  | [], _ => []
  | (pos, ang) :: rest, i =>
      let bounce_color := tier_color GREEN YELLOW RED ang
      let bounce_pulse : ℚ :=
        if s.animated_properties then
          7/10 + 3/10 * sinQ (s.time * (3/20) + i * (1/2))
        else 1
      let center : ℤ × ℤ := (pyint pos.1, pyint pos.2)
      let glow :=
        if s.gradient_glow then
          [DrawCmd.circle
            (apply_vibrance s (scale_raw ((3/10) * bounce_pulse) bounce_color))
            center (pyint (12 * bounce_pulse)),
           DrawCmd.circle
            (apply_vibrance s (scale_raw ((3/5) * bounce_pulse) bounce_color))
            center (pyint (8 * bounce_pulse))]
        else []
      let core :=
        if s.laser_core_halo then
          [DrawCmd.circle
            (apply_vibrance s (scale_min255 bounce_pulse bounce_color))
            center (pyint (4 * bounce_pulse))]
        else [DrawCmd.circle (apply_vibrance s bounce_color) center 3]
      glow ++ core ++ bounce_cmds sinQ s rest (i + 1)

/-- The start-marker commands of `draw_light_path` (StrippedFiberTest.py
lines 738-760). -/
def source_marker_cmds (sinQ : ℚ → ℚ) (s : SimState) (start_pos : ℤ × ℤ) :
    List DrawCmd :=
  let source_pulse : ℚ :=
    if s.animated_properties then 4/5 + 1/5 * sinQ (s.time * (1/5)) else 1
  let glow :=
    if s.gradient_glow then
      [DrawCmd.circle (apply_vibrance s (0, pyint (100 * source_pulse), 0))
        start_pos (pyint (15 * source_pulse))]
    else []
  let core :=
    if s.laser_core_halo then
      [DrawCmd.circle (apply_vibrance s WHITE) start_pos 8,
       DrawCmd.circle (apply_vibrance s GREEN) start_pos 6,
       DrawCmd.circle (apply_vibrance s (0, 255, 0)) start_pos 3]
    else [DrawCmd.circle (apply_vibrance s GREEN) start_pos 5]
  glow ++ core

/-- The end-marker commands of `draw_light_path` (StrippedFiberTest.py lines
762-784). -/
def exit_marker_cmds (sinQ : ℚ → ℚ) (s : SimState) (end_point : ℤ × ℤ)
    (light_color : Color) : List DrawCmd :=
  let exit_pulse : ℚ :=
    if s.animated_properties then 9/10 + 1/10 * sinQ (s.time * (1/4)) else 1
  let glow :=
    if s.gradient_glow then
      [DrawCmd.circle
        (apply_vibrance s (scale_raw ((3/10) * exit_pulse) light_color))
        end_point (pyint (12 * exit_pulse))]
    else []
  let core :=
    if s.laser_core_halo then
      [DrawCmd.circle (apply_vibrance s WHITE) end_point 8,
       DrawCmd.circle (apply_vibrance s light_color) end_point 6]
    else [DrawCmd.circle (apply_vibrance s light_color) end_point 5]
  glow ++ core

/-- `draw_light_path` (StrippedFiberTest.py lines 663-784): nothing for a
path of fewer than two points; otherwise classify the entry angle
`abs(degrees(get_angle_from_slider()))` into a tier colour and intensity,
draw every segment, the bounce markers, and the start and end markers. -/
def draw_light_path (sqrtQ sinQ : ℚ → ℚ) (s : SimState)
    (path_points : List (ℤ × ℤ)) (bounce_angles : List ℚ)
    (bounce_positions : List (ℚ × ℚ)) : List DrawCmd :=
  match path_points with
  | p0 :: p1 :: rest =>
      let current_angle := |get_angle_degrees 87 s.slider_value|
      let light_color := tier_color GREEN YELLOW ORANGE current_angle
      let intensity : ℚ :=
        if current_angle < 12 then 1 else if current_angle < 22 then 4/5
        else 3/5
      segment_cmds sqrtQ sinQ s light_color intensity (p0 :: p1 :: rest) 0 ++
        bounce_cmds sinQ s (bounce_positions.zip bounce_angles) 0 ++
        source_marker_cmds sinQ s p0 ++
        exit_marker_cmds sinQ s ((p0 :: p1 :: rest).getLast (by simp))
          light_color
  | _ => []

/-- The `calculate_light_path` method as a function of the simulation state
(StrippedFiberTest.py lines 176-240): the slider value is converted to a
degree angle with `max_angle = 87`; `cosD`/`sinD` model
`math.cos(math.radians angle)` and `math.sin(math.radians angle)`. -/
def calculate_light_path (cosD sinD : ℚ → ℚ) (s : SimState) :
    Option TraceResult :=
  let angle := get_angle_degrees 87 s.slider_value
  computePath 0 (s.screen_height : ℚ) 0 (s.screen_width : ℚ) 2
    ((s.screen_height / 2 : ℤ) : ℚ) (cosD angle) (sinD angle)

/-- The animation fields advanced by the frame loop. -/
structure AnimState where
  time : ℚ
  global_dash_offset : ℚ
  deriving DecidableEq

/-- The per-frame animation update of `run` (StrippedFiberTest.py lines
805-815, identically fiberTest_laser.py lines 981-987): `self.time += 1`
every frame, and `self.global_dash_offset += 2.5 * dash_speed_multiplier`
whenever animated properties and pulsing segments are enabled. -/
def run_frame_update (animated pulsing : Bool) (speed_mult : ℚ)
    (st : AnimState) : AnimState where
  time := st.time + 1
  global_dash_offset :=
    if animated && pulsing then st.global_dash_offset + (5/2) * speed_mult
    else st.global_dash_offset

/-- `n` consecutive frames of the animation update. -/
def run_frames (animated pulsing : Bool) (speed_mult : ℚ) :
    ℕ → AnimState → AnimState
  | 0, st => st
  | n + 1, st =>
      run_frames animated pulsing speed_mult n
        (run_frame_update animated pulsing speed_mult st)

/-- Integer square root on rationals, used to instantiate the abstract
`sqrtQ` parameter at concrete inputs: it agrees with `math.sqrt` on
perfect-square naturals, which is all the concrete witnesses use. -/
def intSqrtQ (q : ℚ) : ℚ := (Nat.sqrt q.num.toNat : ℚ)

/-- The stroke widths that `draw_pulsing_segments` can emit: each is a fixed
function of the thickness multiplier alone (StrippedFiberTest.py lines 352,
356, 360, 365, 368, 456, 459, 462, 467, 470). -/
def tm_only_width (tm : ℚ) (w : ℤ) : Prop :=
  w = pyint (12 * tm) ∨ w = pyint (8 * tm) ∨ w = pyint (5 * tm) ∨
    w = pyint (3 * tm) ∨ w = max 1 (pyint (2 * tm)) ∨
    w = max 1 (pyint (3 * tm)) ∨ w = max 1 (pyint ((3/2) * tm))

lemma pyint_of_nonneg {q : ℚ} (h : 0 ≤ q) : pyint q = ⌊q⌋ := by
  rw [pyint, if_neg (not_lt.mpr h)]

lemma pyint_intCast (n : ℤ) : pyint (n : ℚ) = n := by
  by_cases h : (n : ℚ) < 0
  · have : (-(n : ℚ)) = ((-n : ℤ) : ℚ) := by push_cast; ring
    rw [pyint, if_pos h, this, Int.floor_intCast, neg_neg]
  · rw [pyint, if_neg h, Int.floor_intCast]

lemma pyint_eval (q : ℚ) (z : ℤ) (h0 : 0 ≤ q) (h1 : (z : ℚ) ≤ q)
    (h2 : q < z + 1) : pyint q = z := by
  rw [pyint_of_nonneg h0]
  exact Int.floor_eq_iff.mpr ⟨h1, h2⟩

lemma pymod_zero_left (L : ℚ) : pymod 0 L = 0 := by
  simp [pymod]

lemma pymod_add_int_mul (a L : ℚ) (k : ℤ) (hL : L ≠ 0) :
    pymod (a + k * L) L = pymod a L := by
  have hdiv : (a + k * L) / L = a / L + k := by field_simp
  rw [pymod, pymod, hdiv, Int.floor_add_int]
  push_cast
  ring

lemma traceAux_isSome (top bottom right step dx : ℚ) :
    ∀ fuel : ℕ, ∀ x y dy lastPt pts bs segs,
      right - x ≤ fuel * (dx * step) →
      (traceAux top bottom right step dx fuel x y dy lastPt pts bs segs).isSome := by
  intro fuel
  induction fuel with
  | zero =>
      intro x y dy lastPt pts bs segs h
      have hx : ¬ x < right := by push_cast at h; nlinarith
      simp [traceAux, hx]
  | succ n ih =>
      intro x y dy lastPt pts bs segs h
      by_cases hx : x < right
      · have hbound : right - (x + dx * step) ≤ n * (dx * step) := by
          push_cast at h ⊢; nlinarith
        simp only [traceAux, if_pos hx]
        split_ifs with h1 h2
        · exact ih _ _ _ _ _ _ _ hbound
        · exact ih _ _ _ _ _ _ _ hbound
        · exact ih _ _ _ _ _ _ _ hbound
      · simp [traceAux, hx]

lemma computePath_isSome (top bottom left right step startY dx dy : ℚ)
    (hdx : 0 < dx) (hstep : 0 < step) :
    (computePath top bottom left right step startY dx dy).isSome := by
  have hd : 0 < dx * step := mul_pos hdx hstep
  apply traceAux_isSome top bottom right step dx
  rw [fuelFor]
  have h1 : right - left ≤ (⌈(right - left) / (dx * step)⌉ : ℚ) * (dx * step) := by
    rw [← div_le_iff₀ hd]
    exact Int.le_ceil _
  have h2 : ((⌈(right - left) / (dx * step)⌉ : ℤ) : ℚ) ≤
      ((⌈(right - left) / (dx * step)⌉.toNat : ℕ) : ℚ) := by
    exact_mod_cast Int.self_le_toNat _
  push_cast
  nlinarith [mul_le_mul_of_nonneg_right h2 hd.le]

lemma traceAux_pts_prefix (top bottom right step dx : ℚ) :
    ∀ fuel : ℕ, ∀ x y dy lastPt pts bs segs r,
      traceAux top bottom right step dx fuel x y dy lastPt pts bs segs = some r →
      ∃ tl, r.pts = pts ++ tl := by
  intro fuel
  induction fuel with
  | zero =>
      intro x y dy lastPt pts bs segs r h
      by_cases hx : x < right
      · simp [traceAux, hx] at h
      · simp only [traceAux, if_neg hx, Option.some.injEq] at h
        exact ⟨[], by rw [← h, List.append_nil]⟩
  | succ n ih =>
      intro x y dy lastPt pts bs segs r h
      by_cases hx : x < right
      · simp only [traceAux, if_pos hx] at h
        split_ifs at h with h1 h2
        · obtain ⟨tl, htl⟩ := ih _ _ _ _ _ _ _ _ h
          exact ⟨_, by rw [htl, List.append_assoc]⟩
        · obtain ⟨tl, htl⟩ := ih _ _ _ _ _ _ _ _ h
          exact ⟨_, by rw [htl, List.append_assoc]⟩
        · obtain ⟨tl, htl⟩ := ih _ _ _ _ _ _ _ _ h
          exact ⟨_, by rw [htl, List.append_assoc]⟩
      · simp only [traceAux, if_neg hx, Option.some.injEq] at h
        exact ⟨[], by rw [← h, List.append_nil]⟩

lemma traceAux_getLast (top bottom right step dx : ℚ) :
    ∀ fuel : ℕ, ∀ x y dy (lastPt : ℤ × ℤ) pts bs segs r,
      lastPt.1 = pyint x →
      pts.getLast? = some lastPt →
      traceAux top bottom right step dx fuel x y dy lastPt pts bs segs = some r →
      ∃ q xf, r.pts.getLast? = some q ∧ q.1 = pyint xf ∧ right ≤ xf := by
  intro fuel
  induction fuel with
  | zero =>
      intro x y dy lastPt pts bs segs r h1 h2 h
      by_cases hx : x < right
      · simp [traceAux, hx] at h
      · simp only [traceAux, if_neg hx, Option.some.injEq] at h
        exact ⟨lastPt, x, by rw [← h]; exact h2, h1, not_lt.mp hx⟩
  | succ n ih =>
      intro x y dy lastPt pts bs segs r h1 h2 h
      by_cases hx : x < right
      · simp only [traceAux, if_pos hx] at h
        split_ifs at h with hb1 hb2
        · exact ih _ _ _ _ _ _ _ _ rfl (List.getLast?_concat _) h
        · exact ih _ _ _ _ _ _ _ _ rfl (List.getLast?_concat _) h
        · exact ih _ _ _ _ _ _ _ _ rfl (List.getLast?_concat _) h
      · simp only [traceAux, if_neg hx, Option.some.injEq] at h
        exact ⟨lastPt, x, by rw [← h]; exact h2, h1, not_lt.mp hx⟩

lemma traceAux_bounces (top bottom right step dx : ℚ) (hd : 0 < dx * step)
    (hdx : dx ≠ 0) :
    ∀ fuel : ℕ, ∀ x y dy lastPt pts bs segs r,
      (∀ b ∈ bs, 0 ≤ b.ady ∧ 0 < b.adx ∧ b.x < x) →
      bs.Pairwise (fun a b => a.x < b.x) →
      traceAux top bottom right step dx fuel x y dy lastPt pts bs segs = some r →
      (∀ b ∈ r.bounces, 0 ≤ b.ady ∧ 0 < b.adx) ∧
        r.bounces.Pairwise (fun a b => a.x < b.x) := by
  intro fuel
  induction fuel with
  | zero =>
      intro x y dy lastPt pts bs segs r hinv hpw h
      by_cases hx : x < right
      · simp [traceAux, hx] at h
      · simp only [traceAux, if_neg hx, Option.some.injEq] at h
        subst h
        exact ⟨fun b hb => ⟨(hinv b hb).1, (hinv b hb).2.1⟩, hpw⟩
  | succ n ih =>
      intro x y dy lastPt pts bs segs r hinv hpw h
      have hlt : x < x + dx * step := lt_add_of_pos_right x hd
      by_cases hx : x < right
      · simp only [traceAux, if_pos hx] at h
        split_ifs at h with hb1 hb2
        · refine ih _ _ _ _ _ _ _ _ ?_ ?_ h
          · intro b hb
            rcases List.mem_append.mp hb with hb | hb
            · exact ⟨(hinv b hb).1, (hinv b hb).2.1, (hinv b hb).2.2.trans hlt⟩
            · simp only [List.mem_singleton] at hb
              subst hb
              exact ⟨abs_nonneg dy, abs_pos.mpr hdx, hlt⟩
          · refine List.pairwise_append.mpr ⟨hpw, List.pairwise_singleton _ _, ?_⟩
            intro a ha b hb
            simp only [List.mem_singleton] at hb
            subst hb
            exact (hinv a ha).2.2
        · refine ih _ _ _ _ _ _ _ _ ?_ ?_ h
          · intro b hb
            rcases List.mem_append.mp hb with hb | hb
            · exact ⟨(hinv b hb).1, (hinv b hb).2.1, (hinv b hb).2.2.trans hlt⟩
            · simp only [List.mem_singleton] at hb
              subst hb
              exact ⟨abs_nonneg dy, abs_pos.mpr hdx, hlt⟩
          · refine List.pairwise_append.mpr ⟨hpw, List.pairwise_singleton _ _, ?_⟩
            intro a ha b hb
            simp only [List.mem_singleton] at hb
            subst hb
            exact (hinv a ha).2.2
        · refine ih _ _ _ _ _ _ _ _ ?_ hpw h
          intro b hb
          exact ⟨(hinv b hb).1, (hinv b hb).2.1, (hinv b hb).2.2.trans hlt⟩
      · simp only [traceAux, if_neg hx, Option.some.injEq] at h
        subst h
        exact ⟨fun b hb => ⟨(hinv b hb).1, (hinv b hb).2.1⟩, hpw⟩

lemma traceAux_y_bounds (top bottom right step dx : ℚ)
    (htop : (0 : ℚ) ≤ top) (hstep : 0 < step) (hsep : step ≤ bottom - top)
    (tZ bZ : ℤ) (htZ : (tZ : ℚ) = top) (hbZ : (bZ : ℚ) = bottom) :
    ∀ fuel : ℕ, ∀ x y dy lastPt pts bs segs r,
      top ≤ y → y ≤ bottom → dy ^ 2 ≤ 1 →
      (∀ p ∈ pts, tZ ≤ p.2 ∧ p.2 ≤ bZ) →
      traceAux top bottom right step dx fuel x y dy lastPt pts bs segs = some r →
      ∀ p ∈ r.pts, tZ ≤ p.2 ∧ p.2 ≤ bZ := by
  intro fuel
  induction fuel with
  | zero =>
      intro x y dy lastPt pts bs segs r _ _ _ hpts h
      by_cases hx : x < right
      · simp [traceAux, hx] at h
      · simp only [traceAux, if_neg hx, Option.some.injEq] at h
        subst h
        exact hpts
  | succ n ih =>
      intro x y dy lastPt pts bs segs r hy1 hy2 hdy hpts h
      have habs : |dy| ≤ 1 := (sq_le_one_iff_abs_le_one dy).mp hdy
      have hstepmove : |dy * step| ≤ step := by
        rw [abs_mul, abs_of_pos hstep]
        nlinarith [abs_nonneg dy]
      have hmove1 : y - step ≤ y + dy * step := by
        have := neg_le_of_abs_le hstepmove
        linarith
      have hmove2 : y + dy * step ≤ y + step := by
        have := le_of_abs_le hstepmove
        linarith
      -- a point with rational y between the walls casts to an integer point
      -- between the integer walls
      have hmk : ∀ q : ℚ, top ≤ q → q ≤ bottom → tZ ≤ pyint q ∧ pyint q ≤ bZ := by
        intro q hq1 hq2
        have hq0 : (0 : ℚ) ≤ q := htop.trans hq1
        rw [pyint_of_nonneg hq0]
        constructor
        · rw [Int.le_floor, htZ]
          exact hq1
        · have : ((⌊q⌋ : ℤ) : ℚ) ≤ (bZ : ℚ) := by
            rw [hbZ]
            exact (Int.floor_le q).trans hq2
          exact_mod_cast this
      by_cases hx : x < right
      · simp only [traceAux, if_pos hx] at h
        split_ifs at h with hb1 hb2
        · -- bounce off the top wall
          have hry1 : top ≤ top + (top - (y + dy * step)) := by linarith
          have hry2 : top + (top - (y + dy * step)) ≤ bottom := by linarith
          refine ih _ _ _ _ _ _ _ _ hry1 hry2 (by rw [neg_pow]; simpa) ?_ h
          intro p hp
          rcases List.mem_append.mp hp with hp | hp
          · exact hpts p hp
          · simp only [List.mem_singleton] at hp
            subst hp
            exact hmk _ hry1 hry2
        · -- bounce off the bottom wall
          have hry1 : top ≤ bottom - (y + dy * step - bottom) := by linarith
          have hry2 : bottom - (y + dy * step - bottom) ≤ bottom := by linarith
          refine ih _ _ _ _ _ _ _ _ hry1 hry2 (by rw [neg_pow]; simpa) ?_ h
          intro p hp
          rcases List.mem_append.mp hp with hp | hp
          · exact hpts p hp
          · simp only [List.mem_singleton] at hp
            subst hp
            exact hmk _ hry1 hry2
        · -- no bounce
          have hny1 : top ≤ y + dy * step := le_of_not_le hb1
          have hny2 : y + dy * step ≤ bottom := le_of_not_le (by
            intro hcon
            exact hb2 hcon)
          refine ih _ _ _ _ _ _ _ _ hny1 hny2 hdy ?_ h
          intro p hp
          rcases List.mem_append.mp hp with hp | hp
          · exact hpts p hp
          · simp only [List.mem_singleton] at hp
            subst hp
            exact hmk _ hny1 hny2
      · simp only [traceAux, if_neg hx, Option.some.injEq] at h
        subst h
        exact hpts

lemma traceAux_horizontal (H W c : ℤ) (hc1 : 0 < c) (hc2 : (c : ℚ) < (H : ℚ)) :
    ∀ fuel : ℕ, ∀ (x : ℤ) (pts : List (ℤ × ℤ)) bs segs r,
      (x : ℚ) < (W : ℚ) + 2 →
      pts.getLast? = some (x, c) →
      traceAux 0 (H : ℚ) (W : ℚ) 2 1 fuel (x : ℚ) (c : ℚ) 0 (x, c) pts bs segs
        = some r →
      r.bounces = bs ∧
        (∃ tl, r.pts = pts ++ tl ∧ ∀ p ∈ tl, p.2 = c) ∧
        (∃ tl2, r.segSqs = segs ++ tl2 ∧ ∀ sq ∈ tl2, sq = 4) ∧
        ∃ xf : ℤ, r.pts.getLast? = some (xf, c) ∧ (W : ℚ) ≤ (xf : ℚ) ∧
          (xf : ℚ) < (W : ℚ) + 2 := by
  intro fuel
  induction fuel with
  | zero =>
      intro x pts bs segs r hxW hlast h
      by_cases hx : (x : ℚ) < (W : ℚ)
      · simp [traceAux, hx] at h
      · simp only [traceAux, if_neg hx, Option.some.injEq] at h
        subst h
        exact ⟨rfl, ⟨[], by simp, by simp⟩, ⟨[], by simp, by simp⟩,
          x, hlast, not_lt.mp hx, hxW⟩
  | succ n ih =>
      intro x pts bs segs r hxW hlast h
      by_cases hx : (x : ℚ) < (W : ℚ)
      · simp only [traceAux, if_pos hx] at h
        have hcpos : (0 : ℚ) < (c : ℚ) := by exact_mod_cast hc1
        rw [if_neg (by nlinarith : ¬((c : ℚ) + 0 * 2 ≤ (0 : ℚ)))] at h
        rw [if_neg (by nlinarith : ¬((H : ℚ) ≤ (c : ℚ) + 0 * 2))] at h
        have e2 : (c : ℚ) + 0 * 2 = (c : ℚ) := by ring
        rw [e2] at h
        have e1 : (x : ℚ) + 1 * 2 = ((x + 2 : ℤ) : ℚ) := by push_cast; ring
        rw [e1] at h
        simp only [pyint_intCast] at h
        have e3 : (((x + 2 : ℤ) : ℚ) - ((x, c).1 : ℤ)) ^ 2 +
            ((c : ℚ) - ((x, c).2 : ℤ)) ^ 2 = 4 := by push_cast; ring
        rw [e3] at h
        have hxW2 : ((x + 2 : ℤ) : ℚ) < (W : ℚ) + 2 := by push_cast; linarith
        obtain ⟨hbs, ⟨tl, htl, htlc⟩, ⟨tl2, htl2, htl2c⟩, hlastf⟩ :=
          ih (x + 2) (pts ++ [(x + 2, c)]) bs (segs ++ [4]) r hxW2
            (List.getLast?_concat _) h
        refine ⟨hbs, ⟨(x + 2, c) :: tl, by rw [htl, List.append_assoc]; rfl, ?_⟩,
          ⟨4 :: tl2, by rw [htl2, List.append_assoc]; rfl, ?_⟩, hlastf⟩
        · intro p hp
          rcases List.mem_cons.mp hp with hp | hp
          · subst hp; rfl
          · exact htlc p hp
        · intro sq hsq
          rcases List.mem_cons.mp hsq with hsq | hsq
          · exact hsq
          · exact htl2c sq hsq
      · simp only [traceAux, if_neg hx, Option.some.injEq] at h
        subst h
        exact ⟨rfl, ⟨[], by simp, by simp⟩, ⟨[], by simp, by simp⟩,
          x, hlast, not_lt.mp hx, hxW⟩

lemma sum_sqrt_of_all_four (l : List ℚ) (h : ∀ q ∈ l, q = 4) :
    (l.map fun q : ℚ => Real.sqrt (q : ℝ)).sum = l.length * 2 := by
  induction l with
  | nil => simp
  | cons a t ih =>
      have ha : a = 4 := h a (List.mem_cons_self a t)
      rw [List.map_cons, List.sum_cons,
        ih fun q hq => h q (List.mem_cons_of_mem _ hq), ha]
      have h4 : ((4 : ℚ) : ℝ) = (2 : ℝ) ^ 2 := by norm_num
      rw [h4, Real.sqrt_sq (by norm_num : (0 : ℝ) ≤ 2)]
      push_cast [List.length_cons]
      ring

lemma glow_stroke_width (gc : Color) (p q : ℤ × ℤ) (w1 w2 w3 : ℤ) :
    ∀ c w, c ∈ glow_stroke_cmds gc p q w1 w2 w3 → lineWidth c = some w →
      w = w1 ∨ w = w2 ∨ w = w3 := by
  intro c w hc hw
  simp only [glow_stroke_cmds, List.mem_cons, List.not_mem_nil, or_false] at hc
  rcases hc with hc | hc | hc <;> subst hc <;>
    simp only [lineWidth, Option.some.injEq] at hw <;> subst hw <;> simp

lemma particle_cmds_no_line (sinQ : ℚ → ℚ) (s : SimState) (sp : ℤ × ℤ)
    (bc cc : Color) (tm di dxn dyn dsS dal : ℚ) (i num : ℕ) :
    ∀ n p c, c ∈ particle_cmds sinQ s sp bc cc tm di dxn dyn dsS dal i num n p →
      lineWidth c = none := by
  intro n
  induction n with
  | zero => intro p c hc; simp [particle_cmds] at hc
  | succ m ih =>
      intro p c hc
      simp only [particle_cmds, List.mem_cons] at hc
      rcases hc with hc | hc
      · subst hc; rfl
      · exact ih _ _ hc

lemma sparkle_cmds_no_line (sinQ : ℚ → ℚ) (s : SimState) (sp ep : ℤ × ℤ)
    (bc cc : Color) (tm : ℚ) (num : ℕ) :
    ∀ n i c, c ∈ sparkle_cmds sinQ s sp ep bc cc tm num n i →
      lineWidth c = none := by
  intro n
  induction n with
  | zero => intro i c hc; simp [sparkle_cmds] at hc
  | succ m ih =>
      intro i c hc
      simp only [sparkle_cmds, List.mem_cons] at hc
      rcases hc with hc | hc
      · subst hc; rfl
      · exact ih _ _ hc

lemma dash_cmds_width (sinQ : ℚ → ℚ) (s : SimState) (sp : ℤ × ℤ)
    (bc cc : Color) (tm pulse intensity dxn dyn bl dashLen L off : ℚ) :
    ∀ n i c w,
      c ∈ dash_cmds sinQ s sp bc cc tm pulse intensity dxn dyn bl dashLen L off
        n i →
      lineWidth c = some w → tm_only_width tm w := by
  intro n
  induction n with
  | zero => intro i c w hc _; simp [dash_cmds] at hc
  | succ m ih =>
      intro i c w hc hw
      simp only [dash_cmds] at hc
      by_cases h1 : dash_start_distance i L off + dashLen < 0
      · rw [if_pos h1] at hc
        exact ih _ _ _ hc hw
      rw [if_neg h1] at hc
      by_cases h2 : bl < dash_start_distance i L off
      · rw [if_pos h2] at hc
        simp at hc
      rw [if_neg h2] at hc
      by_cases h3 : min bl (dash_start_distance i L off + dashLen) ≤
          max 0 (dash_start_distance i L off)
      · rw [if_pos h3] at hc
        exact ih _ _ _ hc hw
      rw [if_neg h3] at hc
      rw [List.append_assoc, List.append_assoc] at hc
      rcases List.mem_append.mp hc with hc | hc
      · -- glow layer strokes
        by_cases hg : s.gradient_glow
        · rw [if_pos hg] at hc
          rcases glow_stroke_width _ _ _ _ _ _ _ _ hc hw with h | h | h <;>
            subst h <;> simp [tm_only_width]
        · rw [if_neg hg] at hc
          simp at hc
      rcases List.mem_append.mp hc with hc | hc
      · -- core stroke
        by_cases hh : s.laser_core_halo <;>
          [rw [if_pos hh] at hc; rw [if_neg hh] at hc] <;>
          simp only [List.mem_cons, List.not_mem_nil, or_false] at hc <;>
          subst hc <;>
          simp only [lineWidth, Option.some.injEq] at hw <;>
          subst hw <;> simp [tm_only_width]
      rcases List.mem_append.mp hc with hc | hc
      · -- particles emit only circles
        by_cases hp : s.particle_effects
        · rw [if_pos hp] at hc
          by_cases hd : (5 : ℚ) < min bl (dash_start_distance i L off + dashLen)
              - max 0 (dash_start_distance i L off)
          · rw [if_pos hd] at hc
            rw [particle_cmds_no_line _ _ _ _ _ _ _ _ _ _ _ _ _ _ _ _ hc] at hw
            exact absurd hw (by simp)
          · rw [if_neg hd] at hc
            simp at hc
        · rw [if_neg hp] at hc
          simp at hc
      · exact ih _ _ _ hc hw

lemma faded_base_width (s : SimState) (sp ep : ℤ × ℤ) (bc cc : Color)
    (tm pulse intensity : ℚ) :
    ∀ c w, c ∈ draw_faded_solid_base s sp ep bc cc tm pulse intensity →
      lineWidth c = some w → tm_only_width tm w := by
  intro c w hc hw
  simp only [draw_faded_solid_base] at hc
  rcases List.mem_append.mp hc with hc | hc
  · by_cases hg : s.gradient_glow
    · rw [if_pos hg] at hc
      rcases glow_stroke_width _ _ _ _ _ _ _ _ hc hw with h | h | h <;>
        subst h <;> simp [tm_only_width]
    · rw [if_neg hg] at hc
      simp at hc
  · by_cases hh : s.laser_core_halo <;>
      [rw [if_pos hh] at hc; rw [if_neg hh] at hc] <;>
      simp only [List.mem_cons, List.not_mem_nil, or_false] at hc <;>
      subst hc <;>
      simp only [lineWidth, Option.some.injEq] at hw <;>
      subst hw <;> simp [tm_only_width]

lemma pyint_zero : pyint 0 = 0 := by
  have := pyint_intCast 0
  simpa using this

lemma computePath_horizontal (H W : ℤ) (hH : 2 ≤ H) (hW : 0 < W) :
    ∃ r, computePath 0 (H : ℚ) 0 (W : ℚ) 2 ((H / 2 : ℤ) : ℚ) 1 0 = some r ∧
      r.bounces = [] ∧ r.pts.head? = some (0, H / 2) ∧
      (∀ p ∈ r.pts, p.2 = H / 2) ∧
      (∀ sq ∈ r.segSqs, sq = 4) ∧
      ∃ xf : ℤ, r.pts.getLast? = some (xf, H / 2) ∧ (W : ℚ) ≤ (xf : ℚ) ∧
        (xf : ℚ) < (W : ℚ) + 2 := by
  have hsome := computePath_isSome 0 (H : ℚ) 0 (W : ℚ) 2 ((H / 2 : ℤ) : ℚ) 1 0
    one_pos (by norm_num)
  obtain ⟨r, hr⟩ := Option.isSome_iff_exists.mp hsome
  refine ⟨r, hr, ?_⟩
  rw [computePath, pyint_zero, pyint_intCast] at hr
  have hc1 : 0 < H / 2 := by omega
  have hc2 : ((H / 2 : ℤ) : ℚ) < (H : ℚ) := by
    have : H / 2 < H := by omega
    exact_mod_cast this
  have hW2 : ((0 : ℤ) : ℚ) < (W : ℚ) + 2 := by
    have : (0 : ℚ) < (W : ℚ) := by exact_mod_cast hW
    push_cast
    linarith
  have hmain := traceAux_horizontal H W (H / 2) hc1 hc2 (fuelFor 0 (W : ℚ) 2 1)
    0 [((0 : ℤ), H / 2)] [] [] r hW2
    (by simp)
    (by push_cast; exact hr)
  obtain ⟨hbs, ⟨tl, htl, htlc⟩, ⟨tl2, htl2, htl2c⟩, xf, hlast, hxf1, hxf2⟩ := hmain
  refine ⟨hbs, ?_, ?_, ?_, xf, hlast, hxf1, hxf2⟩
  · rw [htl]; rfl
  · intro p hp
    rw [htl] at hp
    rcases List.mem_append.mp hp with hp | hp
    · simp only [List.mem_singleton] at hp
      subst hp
      rfl
    · exact htlc p hp
  · intro sq hsq
    rw [htl2] at hsq
    rcases List.mem_append.mp hsq with hsq | hsq
    · simp at hsq
    · exact htl2c sq hsq

/-- C3: with the per-segment dash phase
`(-dashPhaseOffset + cumulativeDistance) mod patternLength` and
`patternLength = dashLength + gapLength > 0`, (1) a point at absolute path
distance `D`, expressed in the local coordinate `D - cumulativeDistance` of
any segment, has a dash-pattern phase that depends only on `D`, `g` and the
pattern length — so a dash/gap boundary is classified identically in
whichever segment it is computed, and the pattern continues seamlessly across
segment boundaries and bounces; and (2) every dash start
`i * patternLength - offset`, translated to absolute path distance, is
congruent to the dash phase offset `g` modulo the pattern length,
independently of the segment's own cumulative distance. -/
theorem C3_dash_phase_continuity (tm gm g cum : ℚ)
    (hL : 0 < total_pattern_length tm gm) :
    (∀ D : ℚ,
      pymod ((D - cum) + animation_offset g cum (total_pattern_length tm gm))
          (total_pattern_length tm gm) =
        pymod (D - g) (total_pattern_length tm gm)) ∧
    (∀ i : ℕ, ∃ k : ℤ,
      (cum + dash_start_distance i (total_pattern_length tm gm)
          (animation_offset g cum (total_pattern_length tm gm))) - g =
        k * total_pattern_length tm gm) := by
  have hL0 : total_pattern_length tm gm ≠ 0 := ne_of_gt hL
  constructor
  · intro D
    have hsplit : (D - cum) + animation_offset g cum (total_pattern_length tm gm)
        = (D - g) +
          ((-⌊(-g + cum) / total_pattern_length tm gm⌋ : ℤ) : ℚ) *
            total_pattern_length tm gm := by
      rw [animation_offset, pymod]
      push_cast
      ring
    rw [hsplit, pymod_add_int_mul _ _ _ hL0]
  · intro i
    refine ⟨⌊(-g + cum) / total_pattern_length tm gm⌋ + i, ?_⟩
    rw [dash_start_distance, animation_offset, pymod]
    push_cast
    ring

/-- C3 witness: the theorem applied at the hardcoded StrippedFiberTest
multipliers (thickness 3.7, dash gap 0.3), a dash phase offset of 1 and a
cumulative distance of 5. -/
theorem C3_witness :
    (0 : ℚ) < total_pattern_length (37/10) (3/10) ∧
    ((∀ D : ℚ,
      pymod ((D - 5) + animation_offset 1 5 (total_pattern_length (37/10) (3/10)))
          (total_pattern_length (37/10) (3/10)) =
        pymod (D - 1) (total_pattern_length (37/10) (3/10))) ∧
    (∀ i : ℕ, ∃ k : ℤ,
      (5 + dash_start_distance i (total_pattern_length (37/10) (3/10))
          (animation_offset 1 5 (total_pattern_length (37/10) (3/10)))) - 1 =
        k * total_pattern_length (37/10) (3/10))) :=
  ⟨by norm_num [total_pattern_length, dash_length, gap_length],
   C3_dash_phase_continuity (37/10) (3/10) 1 5
     (by norm_num [total_pattern_length, dash_length, gap_length])⟩

lemma run_frames_spec (a p : Bool) (m : ℚ) (n : ℕ) (st : AnimState) :
    (run_frames a p m n st).time = st.time + n ∧
    (run_frames a p m n st).global_dash_offset =
      st.global_dash_offset +
        (if a && p then (n : ℚ) * ((5/2) * m) else 0) := by
  induction n generalizing st with
  | zero => simp [run_frames]
  | succ k ih =>
      rw [run_frames]
      obtain ⟨h1, h2⟩ := ih (run_frame_update a p m st)
      constructor
      · rw [h1, run_frame_update]
        push_cast
        ring
      · rw [h2, run_frame_update]
        by_cases hap : (a && p) = true
        · rw [if_pos hap, if_pos hap, if_pos hap]
          push_cast
          ring
        · rw [if_neg hap, if_neg hap, if_neg hap]

/-- C4 counterexample: the frame loop advances `self.time` by exactly 1 per
frame and `global_dash_offset` by `2.5 * dash_speed_multiplier` per frame;
covering one second of wall time at 60 frames versus 30 frames (the loop is
capped at 60 FPS but not fixed) produces different dash offsets, so the
animation state is a function of the frame count, not of elapsed wall-clock
seconds, refuting frame-rate independence; and after 60 frames `time` is the
frame count 60, not an elapsed-seconds total. -/
theorem C4_counterexample :
    (run_frames true true (49/10) 60 ⟨0, 0⟩).time = 60 ∧
    (run_frames true true (49/10) 60 ⟨0, 0⟩).global_dash_offset ≠
      (run_frames true true (49/10) 30 ⟨0, 0⟩).global_dash_offset := by
  obtain ⟨h60t, h60o⟩ := run_frames_spec true true (49/10) 60 ⟨0, 0⟩
  obtain ⟨h30t, h30o⟩ := run_frames_spec true true (49/10) 30 ⟨0, 0⟩
  rw [h60t, h60o, h30o]
  norm_num

/-- C4 amended: the run loop of StrippedFiberTest.py lines 805-815 (and
fiberTest_laser.py lines 981-987) advances the animation state by fixed
per-frame increments, not by elapsed wall-clock seconds: after `n` frames,
`self.time` has grown by exactly `n` (a frame count) and `global_dash_offset`
by `n * 2.5 * dash_speed_multiplier` when animated properties and pulsing
segments are on (else it is unchanged), so animation speed tracks the
achieved frame rate (nominally capped at 60 FPS by `clock.tick(60)`). -/
theorem C4_amended_frame_count_clock (a p : Bool) (m : ℚ) (n : ℕ)
    (st : AnimState) :
    (run_frames a p m n st).time = st.time + n ∧
    (run_frames a p m n st).global_dash_offset =
      st.global_dash_offset + (if a && p then (n : ℚ) * ((5/2) * m) else 0) :=
  run_frames_spec a p m n st

/-- C7: `calculate_light_path` is a deterministic function of the slider
value (hence of the entry angle) and the screen bounds: two simulation states
that agree on `slider_value`, `screen_width` and `screen_height` — however
much they differ in animation time, dash offset or the style multipliers —
produce identical results, points, bounces and per-step distances bit for
bit.  (The source keeps no cache, so every call is a fresh computation and
the claimed cache-versus-fresh agreement is this determinism.) -/
theorem C7_path_determinism (cosD sinD : ℚ → ℚ) (s1 s2 : SimState)
    (hv : s1.slider_value = s2.slider_value)
    (hw : s1.screen_width = s2.screen_width)
    (hh : s1.screen_height = s2.screen_height) :
    calculate_light_path cosD sinD s1 = calculate_light_path cosD sinD s2 := by
  rw [calculate_light_path, calculate_light_path, hv, hw, hh]

/-- C7 witness: two states sharing slider value and screen bounds but
differing in animation time, dash offset and thickness multiplier give the
same path. -/
theorem C7_witness :
    ({ stripped_init 800 600 with
        time := 5, global_dash_offset := 77,
        thickness_multiplier := 9 } : SimState).slider_value =
      (stripped_init 800 600).slider_value ∧
    ({ stripped_init 800 600 with
        time := 5, global_dash_offset := 77,
        thickness_multiplier := 9 } : SimState).screen_width =
      (stripped_init 800 600).screen_width ∧
    ({ stripped_init 800 600 with
        time := 5, global_dash_offset := 77,
        thickness_multiplier := 9 } : SimState).screen_height =
      (stripped_init 800 600).screen_height ∧
    calculate_light_path (fun _ => 1) (fun _ => 0)
        { stripped_init 800 600 with
            time := 5, global_dash_offset := 77, thickness_multiplier := 9 } =
      calculate_light_path (fun _ => 1) (fun _ => 0) (stripped_init 800 600) :=
  ⟨rfl, rfl, rfl,
   C7_path_determinism (fun _ => 1) (fun _ => 0) _ _ rfl rfl rfl⟩

/-- C1: for every control value in `[0, 1]` the derived angle lies strictly
inside `(-90°, 90°)`, so `dx = cos angle > 0`; and for every direction with
`dx > 0` (with positive screen width and height and step size 2) the path
tracer terminates, returning a non-empty point list whose first point has the
configured start coordinates and whose last point has `x ≥ screenWidth -
stepSize`. -/
theorem C1_tracer_termination_and_endpoints :
    (∀ v : ℚ, 0 ≤ v → v ≤ 1 →
      0 < Real.cos (((get_angle_degrees 87 v : ℚ) : ℝ) * Real.pi / 180)) ∧
    ∀ top bottom left right startY dx dy : ℚ, 0 < right → 0 < bottom →
      0 < dx →
      ∃ r, computePath top bottom left right 2 startY dx dy = some r ∧
        r.pts ≠ [] ∧ r.pts.head? = some (pyint left, pyint startY) ∧
        ∃ lp, r.pts.getLast? = some lp ∧ right - 2 ≤ (lp.1 : ℚ) := by
  constructor
  · intro v h0 h1
    have hpi := Real.pi_pos
    have h0r : (0 : ℝ) ≤ (v : ℝ) := by exact_mod_cast h0
    have h1r : (v : ℝ) ≤ 1 := by exact_mod_cast h1
    have ha1 : ((get_angle_degrees 87 v : ℚ) : ℝ) ≤ 87 := by
      rw [get_angle_degrees]
      push_cast
      nlinarith
    have ha2 : (-87 : ℝ) ≤ ((get_angle_degrees 87 v : ℚ) : ℝ) := by
      rw [get_angle_degrees]
      push_cast
      nlinarith
    apply Real.cos_pos_of_mem_Ioo
    constructor
    · show -(Real.pi / 2) < ((get_angle_degrees 87 v : ℚ) : ℝ) * Real.pi / 180
      nlinarith
    · show ((get_angle_degrees 87 v : ℚ) : ℝ) * Real.pi / 180 < Real.pi / 2
      nlinarith
  · intro top bottom left right startY dx dy hright hbottom hdx
    obtain ⟨r, hsome⟩ := Option.isSome_iff_exists.mp
      (computePath_isSome top bottom left right 2 startY dx dy hdx
        (by norm_num))
    have hsome' := hsome
    rw [computePath] at hsome'
    obtain ⟨tl, htl⟩ := traceAux_pts_prefix top bottom right 2 dx _ _ _ _ _ _
      _ _ _ hsome'
    obtain ⟨q, xf, hql, hqx, hxf⟩ := traceAux_getLast top bottom right 2 dx
      _ _ _ _ _ _ _ _ _ rfl (by simp) hsome'
    refine ⟨r, hsome, ?_, ?_, q, hql, ?_⟩
    · rw [htl]
      simp
    · rw [htl]
      simp
    · have hxf0 : (0 : ℚ) ≤ xf := le_of_lt (lt_of_lt_of_le hright hxf)
      rw [hqx, pyint_of_nonneg hxf0]
      have hfl : xf - 1 < (⌊xf⌋ : ℚ) := Int.sub_one_lt_floor xf
      linarith

/-- C1 witness: the theorem applied at control value 0.5 and at the direction
(3/5, 4/5) with a 10-wide, 100-high screen. -/
theorem C1_witness :
    (0 < Real.cos (((get_angle_degrees 87 (1/2) : ℚ) : ℝ) * Real.pi / 180)) ∧
    ∃ r, computePath 0 100 0 10 2 50 (3/5) (4/5) = some r ∧
      r.pts ≠ [] ∧ r.pts.head? = some (pyint 0, pyint 50) ∧
      ∃ lp, r.pts.getLast? = some lp ∧ (10 : ℚ) - 2 ≤ (lp.1 : ℚ) :=
  ⟨C1_tracer_termination_and_endpoints.1 (1/2) (by norm_num) (by norm_num),
   C1_tracer_termination_and_endpoints.2 0 100 0 10 50 (3/5) (4/5)
     (by norm_num) (by norm_num) (by norm_num)⟩

/-- C2 counterexample: at direction (3/5, 4/5) on a 2-wide, 100-high screen
with step size 2, `calculate_light_path` takes two steps and accumulates
per-step squared distances 4 and 34/5 (the second differs from
`stepSize² = 4` because it is measured from the integer-rounded previous
point), so the returned total distance `√4 + √(34/5)` is not
`stepCount * stepSize = 2 * 2` — and the accumulation does use a per-step
square root. -/
theorem C2_counterexample :
    segSqsOf (computePath 0 100 0 2 2 50 (3/5) (4/5)) = [4, 34/5] ∧
    ((segSqsOf (computePath 0 100 0 2 2 50 (3/5) (4/5))).map
        fun q : ℚ => Real.sqrt (q : ℝ)).sum ≠
      ((segSqsOf (computePath 0 100 0 2 2 50 (3/5) (4/5))).length : ℝ) * 2 := by
  have hseg : segSqsOf (computePath 0 100 0 2 2 50 (3/5) (4/5)) = [4, 34/5] := by
    have hf : fuelFor 0 2 2 (3/5) = 3 := by
      have h2 : (⌈(2 - 0) / ((3:ℚ)/5 * 2)⌉ : ℤ) = 2 := by
        rw [Int.ceil_eq_iff]
        constructor <;> norm_num
      rw [fuelFor, h2]
      rfl
    have p0 : pyint (0 : ℚ) = 0 := pyint_zero
    have p50 : pyint (50 : ℚ) = 50 :=
      pyint_eval _ _ (by norm_num) (by norm_num) (by norm_num)
    have p1 : pyint (6/5 : ℚ) = 1 :=
      pyint_eval _ _ (by norm_num) (by norm_num) (by norm_num)
    have p2 : pyint (258/5 : ℚ) = 51 :=
      pyint_eval _ _ (by norm_num) (by norm_num) (by norm_num)
    have p3 : pyint (12/5 : ℚ) = 2 :=
      pyint_eval _ _ (by norm_num) (by norm_num) (by norm_num)
    have p4 : pyint (266/5 : ℚ) = 53 :=
      pyint_eval _ _ (by norm_num) (by norm_num) (by norm_num)
    rw [computePath, hf]
    norm_num [traceAux, segSqsOf, p0, p50, p1, p2, p3, p4]
  refine ⟨hseg, ?_⟩
  rw [hseg]
  simp only [List.map_cons, List.map_nil, List.sum_cons, List.sum_nil,
    add_zero, List.length_cons, List.length_nil]
  intro hcon
  have h4 : Real.sqrt ((4 : ℚ) : ℝ) = 2 := by
    rw [show ((4 : ℚ) : ℝ) = (2 : ℝ) ^ 2 by norm_num,
      Real.sqrt_sq (by norm_num : (0 : ℝ) ≤ 2)]
  rw [h4] at hcon
  have hs : Real.sqrt (((34 : ℚ)/5 : ℚ) : ℝ) = 2 := by
    push_cast at hcon ⊢
    linarith
  have hsq := Real.sq_sqrt (show (0 : ℝ) ≤ (((34 : ℚ)/5 : ℚ) : ℝ) by positivity)
  rw [hs] at hsq
  norm_num at hsq

/-- C2 amended: `total_distance` is accumulated with a per-step square root
of the squared distance from the previous stored integer point to the new
exact position (so the spec's claim of square-root-free fixed segment lengths
does not hold in general); it does equal `stepCount * stepSize` in the
special case of the horizontal centre path, where every step lands on
integer coordinates and each per-step squared distance is exactly
`stepSize² = 4`. -/
theorem C2_amended_total_distance (H W : ℤ) (hH : 2 ≤ H) (hW : 0 < W) :
    ∃ r, computePath 0 (H : ℚ) 0 (W : ℚ) 2 ((H / 2 : ℤ) : ℚ) 1 0 = some r ∧
      (∀ sq ∈ r.segSqs, sq = 4) ∧
      (r.segSqs.map fun q : ℚ => Real.sqrt (q : ℝ)).sum =
        (r.segSqs.length : ℝ) * 2 := by
  obtain ⟨r, hr, _, _, _, hseg, _⟩ := computePath_horizontal H W hH hW
  exact ⟨r, hr, hseg, sum_sqrt_of_all_four _ hseg⟩

/-- C2 witness: the amended theorem applied to a 10-wide, 100-high screen. -/
theorem C2_witness :
    (2 : ℤ) ≤ 100 ∧ (0 : ℤ) < 10 ∧
    ∃ r, computePath 0 ((100 : ℤ) : ℚ) 0 ((10 : ℤ) : ℚ) 2
        (((100 : ℤ) / 2 : ℤ) : ℚ) 1 0 = some r ∧
      (∀ sq ∈ r.segSqs, sq = 4) ∧
      (r.segSqs.map fun q : ℚ => Real.sqrt (q : ℝ)).sum =
        (r.segSqs.length : ℝ) * 2 :=
  ⟨by norm_num, by norm_num,
   C2_amended_total_distance 100 10 (by norm_num) (by norm_num)⟩

/-- C5: for every direction with `dx > 0` (every control value, by C1's
angle-range argument) and positive step, `computePath` succeeds and every
bounce event's incidence angle `degrees(atan2(|dy|, |dx|))`, which equals
`arctan(|dy| / |dx|)` in degrees since `dx > 0`, lies in `[0, 90]`, and the
recorded `x` coordinates of consecutive bounce events strictly increase. -/
theorem C5_bounce_angles_and_monotone_x
    (top bottom left right startY step dx dy : ℚ)
    (hdx : 0 < dx) (hstep : 0 < step) :
    ∃ r, computePath top bottom left right step startY dx dy = some r ∧
      (∀ b ∈ r.bounces,
        0 ≤ Real.arctan ((b.ady : ℝ) / (b.adx : ℝ)) * (180 / Real.pi) ∧
          Real.arctan ((b.ady : ℝ) / (b.adx : ℝ)) * (180 / Real.pi) ≤ 90) ∧
      r.bounces.Chain' (fun a b => a.x < b.x) := by
  obtain ⟨r, hsome⟩ := Option.isSome_iff_exists.mp
    (computePath_isSome top bottom left right step startY dx dy hdx hstep)
  have hsome' := hsome
  rw [computePath] at hsome'
  obtain ⟨hmem, hpw⟩ := traceAux_bounces top bottom right step dx
    (mul_pos hdx hstep) (ne_of_gt hdx) _ _ _ _ _ _ _ _ _
    (by simp) List.Pairwise.nil hsome'
  refine ⟨r, hsome, ?_, hpw.chain'⟩
  intro b hb
  obtain ⟨hady, hadx⟩ := hmem b hb
  have hpi := Real.pi_pos
  have ht : (0 : ℝ) ≤ (b.ady : ℝ) / (b.adx : ℝ) :=
    div_nonneg (by exact_mod_cast hady)
      (le_of_lt (by exact_mod_cast hadx))
  have h1 : 0 ≤ Real.arctan ((b.ady : ℝ) / (b.adx : ℝ)) := by
    rw [← Real.arctan_zero]
    exact Real.arctan_strictMono.monotone ht
  have h2 : Real.arctan ((b.ady : ℝ) / (b.adx : ℝ)) < Real.pi / 2 :=
    Real.arctan_lt_pi_div_two _
  constructor
  · exact mul_nonneg h1 (by positivity)
  · have h3 : Real.arctan ((b.ady : ℝ) / (b.adx : ℝ)) * (180 / Real.pi) ≤
        (Real.pi / 2) * (180 / Real.pi) :=
      mul_le_mul_of_nonneg_right h2.le (by positivity)
    have h4 : (Real.pi / 2) * (180 / Real.pi) = 90 := by
      field_simp
      ring
    linarith

/-- C5 witness: the theorem applied at direction (3/5, 4/5), step 2, on a
10-wide, 100-high screen. -/
theorem C5_witness :
    (0 : ℚ) < 3/5 ∧ (0 : ℚ) < 2 ∧
    ∃ r, computePath 0 100 0 10 2 50 (3/5) (4/5) = some r ∧
      (∀ b ∈ r.bounces,
        0 ≤ Real.arctan ((b.ady : ℝ) / (b.adx : ℝ)) * (180 / Real.pi) ∧
          Real.arctan ((b.ady : ℝ) / (b.adx : ℝ)) * (180 / Real.pi) ≤ 90) ∧
      r.bounces.Chain' (fun a b => a.x < b.x) :=
  ⟨by norm_num, by norm_num,
   C5_bounce_angles_and_monotone_x 0 100 0 10 50 2 (3/5) (4/5)
     (by norm_num) (by norm_num)⟩

/-- C6: control value 0.5 maps to a 0-degree entry angle, whose direction is
`(cos 0, sin 0) = (1, 0)`; with that direction the tracer returns zero
bounces and a single straight horizontal run at `y = screenHeight // 2`
from `x = 0` to an exit `x` with `screenWidth ≤ x < screenWidth + stepSize`. -/
theorem C6_center_slider_straight_path (H W : ℤ) (hH : 2 ≤ H) (hW : 0 < W) :
    get_angle_degrees 87 (1/2) = 0 ∧ Real.cos 0 = 1 ∧ Real.sin 0 = 0 ∧
    ∃ r, computePath 0 (H : ℚ) 0 (W : ℚ) 2 ((H / 2 : ℤ) : ℚ) 1 0 = some r ∧
      r.bounces = [] ∧ r.pts.head? = some (0, H / 2) ∧
      (∀ p ∈ r.pts, p.2 = H / 2) ∧
      ∃ xf : ℤ, r.pts.getLast? = some (xf, H / 2) ∧ (W : ℚ) ≤ (xf : ℚ) ∧
        (xf : ℚ) < (W : ℚ) + 2 := by
  refine ⟨by norm_num [get_angle_degrees], Real.cos_zero, Real.sin_zero, ?_⟩
  obtain ⟨r, hr, hbs, hhead, hally, _, hlast⟩ := computePath_horizontal H W hH hW
  exact ⟨r, hr, hbs, hhead, hally, hlast⟩

/-- C6 witness: the theorem applied to a 10-wide, 100-high screen. -/
theorem C6_witness :
    (2 : ℤ) ≤ 100 ∧ (0 : ℤ) < 10 ∧
    (get_angle_degrees 87 (1/2) = 0 ∧ Real.cos 0 = 1 ∧ Real.sin 0 = 0 ∧
    ∃ r, computePath 0 ((100 : ℤ) : ℚ) 0 ((10 : ℤ) : ℚ) 2
        (((100 : ℤ) / 2 : ℤ) : ℚ) 1 0 = some r ∧
      r.bounces = [] ∧ r.pts.head? = some (0, (100 : ℤ) / 2) ∧
      (∀ p ∈ r.pts, p.2 = (100 : ℤ) / 2) ∧
      ∃ xf : ℤ, r.pts.getLast? = some (xf, (100 : ℤ) / 2) ∧
        ((10 : ℤ) : ℚ) ≤ (xf : ℚ) ∧ (xf : ℚ) < ((10 : ℤ) : ℚ) + 2) :=
  ⟨by norm_num, by norm_num,
   C6_center_slider_straight_path 100 10 (by norm_num) (by norm_num)⟩

/-- C10: for every direction with `dx > 0` and `dy² ≤ 1` (any unit
direction), integer walls with the top wall at a non-negative coordinate,
a start between the walls, and a step no larger than the wall separation,
every point the tracer appends has its integer `y` coordinate between the
two reflective boundaries inclusive: the mirror reflection of an overshoot
of at most one step lands back in bounds and integer truncation preserves
the bounds. -/
theorem C10_points_between_walls (tZ bZ : ℤ) (left right startY step dx dy : ℚ)
    (htZ : 0 ≤ tZ) (hy1 : (tZ : ℚ) ≤ startY) (hy2 : startY ≤ (bZ : ℚ))
    (hdy : dy ^ 2 ≤ 1) (hdx : 0 < dx) (hstep : 0 < step)
    (hsep : step ≤ (bZ : ℚ) - (tZ : ℚ)) :
    ∃ r, computePath (tZ : ℚ) (bZ : ℚ) left right step startY dx dy = some r ∧
      ∀ p ∈ r.pts, tZ ≤ p.2 ∧ p.2 ≤ bZ := by
  obtain ⟨r, hsome⟩ := Option.isSome_iff_exists.mp
    (computePath_isSome (tZ : ℚ) (bZ : ℚ) left right step startY dx dy hdx
      hstep)
  have hsome' := hsome
  rw [computePath] at hsome'
  have h0q : (0 : ℚ) ≤ (tZ : ℚ) := by exact_mod_cast htZ
  have hinit : ∀ p ∈ [(pyint left, pyint startY)], tZ ≤ p.2 ∧ p.2 ≤ bZ := by
    intro p hp
    simp only [List.mem_singleton] at hp
    subst hp
    constructor
    · show tZ ≤ pyint startY
      rw [pyint_of_nonneg (h0q.trans hy1), Int.le_floor]
      exact hy1
    · show pyint startY ≤ bZ
      rw [pyint_of_nonneg (h0q.trans hy1)]
      have hfl : ((⌊startY⌋ : ℤ) : ℚ) ≤ (bZ : ℚ) := (Int.floor_le startY).trans hy2
      exact_mod_cast hfl
  exact ⟨r, hsome,
    traceAux_y_bounds (tZ : ℚ) (bZ : ℚ) right step dx h0q hstep hsep tZ bZ
      rfl rfl _ _ _ _ _ _ _ _ r hy1 hy2 hdy hinit hsome'⟩

/-- C10 witness: the theorem applied at direction (3/5, 4/5) with walls 0 and
100, step 2, starting at height 50. -/
theorem C10_witness :
    (0 : ℤ) ≤ 0 ∧ (((0 : ℤ) : ℚ) ≤ 50 ∧ (50 : ℚ) ≤ ((100 : ℤ) : ℚ)) ∧
    ((4/5 : ℚ) ^ 2 ≤ 1 ∧ (0 : ℚ) < 3/5 ∧ (0 : ℚ) < 2 ∧
      (2 : ℚ) ≤ ((100 : ℤ) : ℚ) - ((0 : ℤ) : ℚ)) ∧
    ∃ r, computePath ((0 : ℤ) : ℚ) ((100 : ℤ) : ℚ) 0 10 2 50 (3/5) (4/5)
        = some r ∧
      ∀ p ∈ r.pts, (0 : ℤ) ≤ p.2 ∧ p.2 ≤ (100 : ℤ) :=
  ⟨le_refl 0, ⟨by norm_num, by norm_num⟩,
   ⟨by norm_num, by norm_num, by norm_num, by norm_num⟩,
   C10_points_between_walls 0 100 0 10 50 2 (3/5) (4/5) (le_refl 0)
     (by norm_num) (by norm_num) (by norm_num) (by norm_num) (by norm_num)
     (by norm_num)⟩

lemma plain_vertical_eval :
    draw_pulsing_segments (fun _ => 4) (fun _ => 0) (plain_core_state 1920 1080)
      (0, 0) (0, 4) GREEN WHITE (37/10) 1 1 0 =
    [DrawCmd.line (255, 255, 255) (0, 0) (0, 4) 7] := by
  have p255 : pyint (255 : ℚ) = 255 :=
    pyint_eval _ _ (by norm_num) (by norm_num) (by norm_num)
  have p7 : pyint (37/5 : ℚ) = 7 :=
    pyint_eval _ _ (by norm_num) (by norm_num) (by norm_num)
  have pnp : pyint (193/185 : ℚ) = 1 :=
    pyint_eval _ _ (by norm_num) (by norm_num) (by norm_num)
  have p00 : pyint (0 : ℚ) = 0 := pyint_zero
  have p4 : pyint (4 : ℚ) = 4 :=
    pyint_eval _ _ (by norm_num) (by norm_num) (by norm_num)
  norm_num [draw_pulsing_segments, dash_cmds, plain_core_state, stripped_init,
    dash_length, gap_length, total_pattern_length, dash_start_distance,
    pymod_zero_left, scale_min255, apply_vibrance, WHITE, GREEN,
    p255, p7, pnp, p00, p4]

lemma plain_horizontal_eval :
    draw_pulsing_segments (fun _ => 4) (fun _ => 0) (plain_core_state 1920 1080)
      (0, 0) (4, 0) GREEN WHITE (37/10) 1 1 0 =
    [DrawCmd.line (255, 255, 255) (0, 0) (4, 0) 7] := by
  have p255 : pyint (255 : ℚ) = 255 :=
    pyint_eval _ _ (by norm_num) (by norm_num) (by norm_num)
  have p7 : pyint (37/5 : ℚ) = 7 :=
    pyint_eval _ _ (by norm_num) (by norm_num) (by norm_num)
  have pnp : pyint (193/185 : ℚ) = 1 :=
    pyint_eval _ _ (by norm_num) (by norm_num) (by norm_num)
  have p00 : pyint (0 : ℚ) = 0 := pyint_zero
  have p4 : pyint (4 : ℚ) = 4 :=
    pyint_eval _ _ (by norm_num) (by norm_num) (by norm_num)
  norm_num [draw_pulsing_segments, dash_cmds, plain_core_state, stripped_init,
    dash_length, gap_length, total_pattern_length, dash_start_distance,
    pymod_zero_left, scale_min255, apply_vibrance, WHITE, GREEN,
    p255, p7, pnp, p00, p4]

/-- C8 counterexample: with the hardcoded StrippedFiberTest configuration
(`solid_with_dashes` on), `draw_pulsing_segments` on a zero-length segment —
identical integer endpoints (5, 5) — still emits draw commands: the faded
solid base strokes are drawn before the zero-length guard, so the segment is
not skipped without issuing any draw command.  (`math.sqrt` is modelled by a
function whose only query here is at 0, where it returns the exact root 0.) -/
theorem C8_counterexample :
    draw_pulsing_segments (fun _ => 0) (fun _ => 0) (stripped_init 1920 1080)
      (5, 5) (5, 5) GREEN WHITE (37/10) 1 1 0 ≠ [] := by
  simp [draw_pulsing_segments, stripped_init, draw_faded_solid_base,
    glow_stroke_cmds]

/-- C8 amended: the dash pass of a zero-length segment is skipped by the
`beam_length == 0` guard before the direction is normalised (so no division
by zero and no dash strokes), but the faded solid base is still drawn first
whenever `solid_with_dashes` is enabled, so some draw commands are issued;
`draw_laser_beam` returns with no command at all for identical endpoints;
and a path with fewer than two points draws nothing. -/
theorem C8_amended_degenerate_geometry (sqrtQ sinQ : ℚ → ℚ) (s : SimState)
    (p : ℤ × ℤ) (bc cc : Color) (tm pulse intensity cum : ℚ)
    (hsq : sqrtQ 0 = 0) :
    draw_pulsing_segments sqrtQ sinQ s p p bc cc tm pulse intensity cum =
      (if s.solid_with_dashes then
        draw_faded_solid_base s p p bc cc tm pulse intensity
      else []) ∧
    (∀ base_color intensity2,
      draw_laser_beam sqrtQ sinQ s p p base_color intensity2 = []) ∧
    ∀ pts : List (ℤ × ℤ), pts.length < 2 → ∀ angs poss,
      draw_light_path sqrtQ sinQ s pts angs poss = [] := by
  refine ⟨?_, ?_, ?_⟩
  · simp [draw_pulsing_segments, hsq]
  · intro base_color intensity2
    rw [draw_laser_beam, if_pos rfl]
  · intro pts h angs poss
    rcases pts with _ | ⟨a, _ | ⟨b, t⟩⟩
    · rfl
    · rfl
    · simp only [List.length_cons] at h
      omega

/-- C8 witness: the amended theorem applied at the hardcoded configuration,
the zero-length segment at (3, 4), and a square-root model that is 0 at 0. -/
theorem C8_witness :
    (fun _ : ℚ => (0 : ℚ)) 0 = 0 ∧
    (draw_pulsing_segments (fun _ => 0) (fun _ => 0) (stripped_init 1920 1080)
        (3, 4) (3, 4) GREEN WHITE (37/10) 1 1 0 =
      (if (stripped_init 1920 1080).solid_with_dashes then
        draw_faded_solid_base (stripped_init 1920 1080) (3, 4) (3, 4) GREEN
          WHITE (37/10) 1 1
      else []) ∧
    (∀ base_color intensity2,
      draw_laser_beam (fun _ => 0) (fun _ => 0) (stripped_init 1920 1080)
        (3, 4) (3, 4) base_color intensity2 = []) ∧
    ∀ pts : List (ℤ × ℤ), pts.length < 2 → ∀ angs poss,
      draw_light_path (fun _ => 0) (fun _ => 0) (stripped_init 1920 1080)
        pts angs poss = []) :=
  ⟨rfl,
   C8_amended_degenerate_geometry (fun _ => 0) (fun _ => 0)
     (stripped_init 1920 1080) (3, 4) GREEN WHITE (37/10) 1 1 0 rfl⟩

/-- C9 counterexample: a 90-degree (vertical) segment is stroked with the
same width as a 0-degree (horizontal) segment of the same length: with
thickness multiplier 3.7 both dash cores are 7 pixels wide — exactly
`max(1, int(2 * thickness_multiplier))`, the unmodified base — whereas the
claimed compensation curve requires the 90-degree width to be at most 0.75
times the base `2 * 3.7 = 7.4`, and `7 ≤ 0.75 * 7.4 = 5.55` is false.  No
angle-compensated thickness exists in the source. -/
theorem C9_counterexample :
    draw_pulsing_segments (fun _ => 4) (fun _ => 0) (plain_core_state 1920 1080)
        (0, 0) (0, 4) GREEN WHITE (37/10) 1 1 0 =
      [DrawCmd.line (255, 255, 255) (0, 0) (0, 4) 7] ∧
    draw_pulsing_segments (fun _ => 4) (fun _ => 0) (plain_core_state 1920 1080)
        (0, 0) (4, 0) GREEN WHITE (37/10) 1 1 0 =
      [DrawCmd.line (255, 255, 255) (0, 0) (4, 0) 7] ∧
    max 1 (pyint (2 * (37/10))) = 7 ∧
    ¬ ((7 : ℚ) ≤ (3/4) * (2 * (37/10))) := by
  refine ⟨plain_vertical_eval, plain_horizontal_eval, ?_, by norm_num⟩
  have p7 : pyint (2 * (37/10) : ℚ) = 7 :=
    pyint_eval _ _ (by norm_num) (by norm_num) (by norm_num)
  rw [p7]
  decide

/-- C9 amended: the stroke widths emitted by `draw_pulsing_segments` are
independent of the segment's direction: every line command's width is one of
the fixed functions of the thickness multiplier alone — `int(12 * tm)`,
`int(8 * tm)`, `int(5 * tm)`, `int(3 * tm)`, `max(1, int(2 * tm))`,
`max(1, int(3 * tm))`, `max(1, int(1.5 * tm))` — with no angle-compensation
curve. -/
theorem C9_amended_thickness_angle_independent (sqrtQ sinQ : ℚ → ℚ)
    (s : SimState) (sp ep : ℤ × ℤ) (bc cc : Color)
    (tm pulse intensity cum : ℚ) :
    ∀ c ∈ draw_pulsing_segments sqrtQ sinQ s sp ep bc cc tm pulse intensity
      cum, ∀ w, lineWidth c = some w → tm_only_width tm w := by
  intro c hc w hw
  simp only [draw_pulsing_segments] at hc
  split at hc
  · split at hc
    · exact faded_base_width _ _ _ _ _ _ _ _ _ _ hc hw
    · simp at hc
  · rcases List.mem_append.mp hc with hc | hc
    · split at hc
      · exact faded_base_width _ _ _ _ _ _ _ _ _ _ hc hw
      · simp at hc
    · exact dash_cmds_width _ _ _ _ _ _ _ _ _ _ _ _ _ _ _ _ _ _ hc hw

/-- C9 witness: the amended theorem applied to the 7-pixel core stroke of
the concrete vertical segment of the counterexample. -/
theorem C9_witness :
    DrawCmd.line (255, 255, 255) (0, 0) (0, 4) 7 ∈
      draw_pulsing_segments (fun _ => 4) (fun _ => 0)
        (plain_core_state 1920 1080) (0, 0) (0, 4) GREEN WHITE (37/10) 1 1 0 ∧
    lineWidth (DrawCmd.line (255, 255, 255) (0, 0) (0, 4) 7) = some 7 ∧
    tm_only_width (37/10) 7 := by
  have hmem : DrawCmd.line (255, 255, 255) (0, 0) (0, 4) 7 ∈
      draw_pulsing_segments (fun _ => 4) (fun _ => 0)
        (plain_core_state 1920 1080) (0, 0) (0, 4) GREEN WHITE (37/10) 1 1 0 := by
    rw [plain_vertical_eval]
    simp
  exact ⟨hmem, rfl,
    C9_amended_thickness_angle_independent (fun _ => 4) (fun _ => 0)
      (plain_core_state 1920 1080) (0, 0) (0, 4) GREEN WHITE (37/10) 1 1 0
      _ hmem 7 rfl⟩

end OpticalFiber
